import Mathlib

/-!
Verification of the whatsapp-vectorDB pipeline (embed / upsert / query)
against its natural-language specification.  The Go sources are shallowly
embedded: pure string processing is translated function by function;
network calls are passed in as explicit outcome oracles (`none` =
transport/decode failure, `some` = the decoded response); machine floats
are modelled as rationals.
-/

namespace WhatsappVectorDB

/-! ## Go string and regexp primitives -/

/-- Go regexp's Perl character class `\s`: `[\t\n\f\r ]` (RE2 semantics). -/
def goRegexSpace (c : Char) : Bool :=
  c = ' ' || c = '\t' || c = '\n' || c = '\x0c' || c = '\r'

/-- Go `unicode.IsSpace` on the Latin-1 range: tab, newline, vertical tab,
form feed, carriage return, space, NEL and NBSP.  (Higher code points with
the White_Space property do not occur in the modelled transcripts.) -/
def goUnicodeIsSpace (c : Char) : Bool :=
  c = ' ' || c = '\t' || c = '\n' || c = '\x0b' || c = '\x0c' || c = '\r'
    || c = '\x85' || c = '\xa0'

/-- `strings.TrimSpace`: drop leading and trailing `unicode.IsSpace` runs. -/
def trimSpace (s : String) : String :=
  String.mk (((s.data.dropWhile goUnicodeIsSpace).reverse.dropWhile
    goUnicodeIsSpace).reverse)

/-- `strings.ToLower` on ASCII letters.  (No character outside ASCII lowers
onto an ASCII letter, so the `== "end"` comparison below is unaffected.) -/
def toLowerGo (s : String) : String :=
  String.mk (s.data.map (fun c =>
    if 'A' ≤ c ∧ c ≤ 'Z' then Char.ofNat (c.toNat + 32) else c))

/-! ## The embed pass's line regex

`CreateEmbeddingFile` extracts the message of a transcript line with the Go
regexp `(?:\[.*?\]\s*:\s*~?|^)(\S+)` via `FindStringSubmatch`.  Go regexp
has Perl leftmost-first semantics: the match starting earliest wins, and at
one start position the alternatives are preferred in written order with
`.*?` lazy.  The functions below implement exactly this search for that
one pattern. -/

/-- `(\S+)` anchored at the current position: the maximal nonempty run of
non-`\s` characters, or `none` when the position starts with `\s` or is at
the end. -/
def takeNonSpace : List Char → Option (List Char)
  | [] => none
  | c :: cs =>
      if goRegexSpace c then none
      else some (c :: cs.takeWhile (fun d => !goRegexSpace d))

/-- The regexp tail `\s*:\s*~?(\S+)` right after a `]`: capture group 1, or
`none` when the tail does not match here.  The greedy `~?` backtracks to
empty when no `\S+` follows the `~`, in which case group 1 is `~` itself. -/
def tailAfterBracket (cs : List Char) : Option (List Char) :=
  match cs.dropWhile goRegexSpace with
  | ':' :: cs2 =>
      match cs2.dropWhile goRegexSpace with
      | '~' :: cs4 =>
          match takeNonSpace cs4 with
          | some tok => some tok
          | none => some ['~']
      | cs3 => takeNonSpace cs3
  | _ => none

/-- After the literal `[`: the lazy `.*?\]` tries each later `]` in order
(`.` does not cross a newline), continuing with `tailAfterBracket`; a `]`
whose continuation fails is consumed by `.*?` and the search goes on. -/
def matchAfterBracket : List Char → Option (List Char)
  | [] => none
  | c :: cs =>
      if c = ']' then
        match tailAfterBracket cs with
        | some tok => some tok
        | none => matchAfterBracket cs
      else if c = '\n' then none
      else matchAfterBracket cs

/-- Leftmost-first search of `(?:\[.*?\]\s*:\s*~?|^)(\S+)`: at every
position the bracketed alternative is tried first; the `^` alternative
applies only at the start of the text (no multiline flag).  Returns capture
group 1 of the first match, `none` when the regexp does not match. -/
def regexCapture : List Char → Bool → Option (List Char)
  | [], _ => none
  | c :: cs, atStart =>
      match (if c = '[' then matchAfterBracket cs else none) with
      | some tok => some tok
      | none =>
          match (if atStart then takeNonSpace (c :: cs) else none) with
          | some tok => some tok
          | none => regexCapture cs false

/-- Group 1 of `re.FindStringSubmatch(line)` in `CreateEmbeddingFile`: the
regexp has a single capture group, so a successful match yields a slice of
length 2 and `message = matches[1]`; `none` is the no-match (parse failure)
case, where the Go `message` keeps its zero value `""`. -/
def parseMessage (line : String) : Option String :=
  (regexCapture line.data true).map String.mk

/-! ## Decimal formatting and parsing

`float64ToStringSlice` renders each embedding value with
`fmt.Sprintf("%f", f)` (six fractional digits, correctly rounded) and the
upsert pass reads values back with `strconv.ParseFloat`.  Machine floats
are modelled as rationals; a tie at the sixth decimal cannot arise from a
binary64, so the tie-breaking rule (here: away from zero) is immaterial. -/

/-- The decimal digit characters of `n`, most significant first, pushed
onto `acc`; `fuel` bounds the recursion (any `fuel > n` is enough). -/
def natDigitsAux : Nat → Nat → List Char → List Char
  | 0, _, acc => acc
  | fuel + 1, n, acc =>
      if n < 10 then Nat.digitChar n :: acc
      else natDigitsAux fuel (n / 10) (Nat.digitChar (n % 10) :: acc)

/-- The decimal digit characters of `n`, most significant first
(`['0']` for 0). -/
def natDigits (n : Nat) : List Char := natDigitsAux (n + 1) n []

/-- Left-pad a digit string to width 6 with zeros (`%06d`). -/
def padLeft6 (cs : List Char) : List Char :=
  List.replicate (6 - cs.length) '0' ++ cs

/-- Round to the nearest integer, ties away from zero. -/
def roundAway (x : ℚ) : ℤ :=
  if 0 ≤ x then ⌊x + 1 / 2⌋ else -⌊-x + 1 / 2⌋

/-- The exact value `%f` prints for `x`: `x` rounded to six decimals. -/
def round6 (x : ℚ) : ℚ := (roundAway (x * 1000000) : ℚ) / 1000000

/-- `fmt.Sprintf("%f", x)`: sign, integer digits, a dot, six fractional
digits of the correctly rounded six-decimal value.  (`%f` prints the sign
of the value even when it rounds to zero.) -/
def formatF (x : ℚ) : String :=
  let m := (roundAway (x * 1000000)).natAbs
  String.mk ((if x < 0 then ['-'] else [])
    ++ natDigits (m / 1000000)
    ++ '.' :: padLeft6 (natDigits (m % 1000000)))

/-- `float64ToStringSlice`: `fmt.Sprintf("%f", f)` for each value. -/
def float64ToStringSlice (floats : List ℚ) : List String :=
  floats.map formatF

/-- An ASCII decimal digit. -/
def isDigit (c : Char) : Bool := '0' ≤ c && c ≤ '9'

/-- The value of a digit character. -/
def digitVal (c : Char) : Nat := c.toNat - 48

/-- Digit characters (most significant first) to a natural number. -/
def digitsToNat (ds : List Char) : Nat :=
  ds.foldl (fun acc c => 10 * acc + digitVal c) 0

/-- The exponent digits of `strconv.ParseFloat`'s syntax: a nonempty, all
digit suffix. -/
def parseExpNat (cs : List Char) : Option ℤ :=
  if cs ≠ [] ∧ cs.all isDigit then some (digitsToNat cs) else none

/-- A signed exponent body. -/
def parseExpDigits : List Char → Option ℤ
  | '+' :: rest => parseExpNat rest
  | '-' :: rest => (parseExpNat rest).map Neg.neg
  | rest => parseExpNat rest

/-- The optional exponent part: empty, or `e`/`E` and a signed integer;
anything else is trailing garbage and fails the whole parse. -/
def parseExp : List Char → Option ℤ
  | [] => some 0
  | 'e' :: rest => parseExpDigits rest
  | 'E' :: rest => parseExpDigits rest
  | _ => none

/-- The unsigned decimal syntax `strconv.ParseFloat` accepts
(`digits [. digits] [exp]` or `. digits [exp]`, at least one digit), as an
exact rational.  Hex floats and the special values inf/NaN are outside the
rational model. -/
def parseUnsigned (cs : List Char) : Option ℚ :=
  match cs.dropWhile isDigit with
  | [] =>
      if (cs.takeWhile isDigit).isEmpty then none
      else (parseExp []).map
        (fun e => (digitsToNat (cs.takeWhile isDigit) : ℚ) * 10 ^ e)
  | c :: rest2 =>
      if c = '.' then
        if (cs.takeWhile isDigit).isEmpty
            && (rest2.takeWhile isDigit).isEmpty then none
        else (parseExp (rest2.dropWhile isDigit)).map (fun e =>
          ((digitsToNat (cs.takeWhile isDigit) : ℚ)
            + (digitsToNat (rest2.takeWhile isDigit) : ℚ)
              / 10 ^ (rest2.takeWhile isDigit).length) * 10 ^ e)
      else
        if (cs.takeWhile isDigit).isEmpty then none
        else (parseExp (c :: rest2)).map
          (fun e => (digitsToNat (cs.takeWhile isDigit) : ℚ) * 10 ^ e)

/-- `strconv.ParseFloat(s, 64)` on the decimal syntax, as an exact
rational; `none` is the error case (where Go also returns the value 0). -/
def parseFloatGo (s : String) : Option ℚ :=
  match s.data with
  | [] => none
  | c :: cs =>
      if c = '+' then parseUnsigned cs
      else if c = '-' then (parseUnsigned cs).map Neg.neg
      else parseUnsigned (c :: cs)

/-! ## Comma joining and splitting

The CSV rows are float strings, which `encoding/csv` writes unquoted and
joined with commas; the upsert pass reads a row back with
`strings.Split(line, ",")`. -/

/-- `strings.Split(s, ",")` on the characters of `s`. -/
def splitCommaChars : List Char → List (List Char)
  | [] => [[]]
  | c :: cs =>
      if c = ',' then [] :: splitCommaChars cs
      else
        match splitCommaChars cs with
        | [] => [[c]]
        | g :: gs => (c :: g) :: gs

/-- `strings.Split(s, ",")`. -/
def splitComma (s : String) : List String :=
  (splitCommaChars s.data).map String.mk

/-- The fields of one CSV record joined with commas (none of the `%f`
strings contains a comma, a quote or a line break, so `csv.Writer` never
quotes). -/
def joinComma : List (List Char) → List Char
  | [] => []
  | [f] => f
  | f :: g :: gs => f ++ ',' :: joinComma (g :: gs)

/-- The line `csv.Writer.Write` emits for one record. -/
def csvRecord (fields : List String) : String :=
  String.mk (joinComma (fields.map String.data))

/-! ## Configuration constants (package main / package upsert) -/

def indexName : String := "whatsapp-chat"
def indexDimension : Nat := 1536
def indexMetric : String := "cosine"
def topK : Nat := 1

/-! ## embed.GetEmbedding -/

/-- The decoded body of the embedding service's response: `data` is the
list of `embedding` vectors. -/
structure ResponseData where
  data : List (List ℚ)
deriving Repr, DecidableEq

/-- A single quote character (kept out of string literals). -/
def squote : Char := '\x27'

/-- `strings.ReplaceAll` for a single-character pattern. -/
def replaceAllChar (c : Char) (repl : List Char) : List Char → List Char
  | [] => []
  | d :: ds =>
      if d = c then repl ++ replaceAllChar c repl ds
      else d :: replaceAllChar c repl ds

/-- `GetEmbedding`'s input sanitisation: newlines become spaces, then each
single quote becomes quote-backslash-quote-quote. -/
def sanitize (text : String) : String :=
  String.mk (replaceAllChar squote [squote, '\\', squote, squote]
    (replaceAllChar '\n' [' '] text.data))

/-- How one `GetEmbedding` call can go: the transport fails, the body does
not decode, or the decoded body carries no (first) embedding. -/
inductive EmbedError
  | transport
  | decode
  | noData
deriving Repr, DecidableEq

/-- `embed.GetEmbedding text model`: POST the sanitised text and return
the first embedding of the decoded response.  `resp` is the network
outcome for a sanitised input: `none` = transport error, `some none` =
non-decodable body, `some (some rd)` = the decoded `ResponseData`.
(`http.NewRequest` on the constant URL cannot fail.)  The Go error test is
the short-circuit `len(Data) == 0 || len(Data[0].Embedding) == 0`. -/
def GetEmbedding (text : String)
    (resp : String → Option (Option ResponseData)) :
    Except EmbedError (List ℚ) :=
  match resp (sanitize text) with
  | none => Except.error EmbedError.transport
  | some none => Except.error EmbedError.decode
  | some (some rd) =>
      if rd.data.length = 0 ∨ (rd.data.headD []).length = 0 then
        Except.error EmbedError.noData
      else Except.ok (rd.data.headD [])

/-! ## embed.CreateEmbeddingFile

The file-system parts (timestamped output name, `os.Create`, `os.Open`)
are outside the model; the input file is its list of lines and the sink
the list of CSV records written.  A CSV write failure is an oracle per
line number. -/

/-- The counters `CreateEmbeddingFile` logs in its process summary. -/
structure EmbedSummary where
  linesProcessed : Nat
  parseFailures : Nat
  embeddingFailures : Nat
  writeFailures : Nat
  successCount : Nat
deriving Repr, DecidableEq

/-- One iteration of `CreateEmbeddingFile`'s scan loop.  On a regexp
mismatch the parse-failure branch only counts and logs ("skipping"): there
is no `continue`, so `message` keeps the zero value `""` and flows into
`GetEmbedding` like any parsed message. -/
def embedLineStep (resp : String → Option (Option ResponseData))
    (writeOk : Nat → Bool) (st : EmbedSummary × List (List String))
    (line : String) : EmbedSummary × List (List String) :=
  let s0 := st.1
  let rows := st.2
  let lineNumber := s0.linesProcessed + 1
  let s1 := { s0 with linesProcessed := lineNumber }
  let msgParse :=
    match parseMessage line with
    | some m => (m, s1)
    | none => ("", { s1 with parseFailures := s1.parseFailures + 1 })
  let message := msgParse.1
  let s2 := msgParse.2
  match GetEmbedding message resp with
  | Except.error _ =>
      ({ s2 with embeddingFailures := s2.embeddingFailures + 1 }, rows)
  | Except.ok embedding =>
      let strEmbedding := float64ToStringSlice embedding
      if writeOk lineNumber then
        ({ s2 with successCount := s2.successCount + 1 },
         rows ++ [strEmbedding])
      else
        ({ s2 with writeFailures := s2.writeFailures + 1 }, rows)

/-- `embed.CreateEmbeddingFile` over the input file's lines: the final
summary and the CSV records written to the sink, in order. -/
def CreateEmbeddingFile (lines : List String)
    (resp : String → Option (Option ResponseData)) (writeOk : Nat → Bool) :
    EmbedSummary × List (List String) :=
  lines.foldl (embedLineStep resp writeOk) (⟨0, 0, 0, 0, 0⟩, [])

/-! ## upsert.UpsertDataToPinecone

Step 1 (the whoami call and its unchecked `.(string)` assertion) precedes
the row loop and aborts the whole call on failure; the model covers the
row loop, which is what the summary describes. -/

/-- One `vectors/upsert` POST: the body's single vector entry. -/
structure UpsertCall where
  id : String
  values : List ℚ
deriving Repr, DecidableEq

/-- The counters `UpsertDataToPinecone` logs in its process summary. -/
structure UpsertSummary where
  lineNumber : Nat
  successCount : Nat
  failCount : Nat
deriving Repr, DecidableEq

/-- The `values` slice one row builds: each comma field through
`strconv.ParseFloat`; on a parse error the slot keeps the returned zero
value and the `continue` only advances the inner field loop, so the row
itself goes on to be upserted. -/
def rowValues (line : String) : List ℚ :=
  (splitComma line).map (fun v => (parseFloatGo v).getD 0)

/-- The synthetic identifier `vector_id_<lineNumber>`. -/
def vectorID (lineNumber : Nat) : String :=
  "vector_id_" ++ toString lineNumber

/-- `UpsertDataToPinecone`'s row loop: one POST per scanned line
(`json.Marshal` of a rational-valued vector and `http.NewRequest` on the
fixed URL cannot fail), counted failed on transport error (`doResp n =
none`) or status ≥ 400, successful otherwise.  Returns the summary and
the write calls attempted, in order. -/
def upsertRows (lines : List String) (doResp : Nat → Option Nat) :
    UpsertSummary × List UpsertCall :=
  lines.foldl
    (fun st line =>
      let s := st.1
      let calls := st.2
      let n := s.lineNumber + 1
      let call : UpsertCall := { id := vectorID n, values := rowValues line }
      match doResp n with
      | none =>
          ({ s with lineNumber := n, failCount := s.failCount + 1 },
           calls ++ [call])
      | some status =>
          if status ≥ 400 then
            ({ s with lineNumber := n, failCount := s.failCount + 1 },
             calls ++ [call])
          else
            ({ s with lineNumber := n, successCount := s.successCount + 1 },
             calls ++ [call]))
    (⟨0, 0, 0⟩, [])

/-! ## upsert.GetOrCreatePineconeIndex -/

/-- The control-plane calls the index lifecycle issues, in order. -/
inductive IndexCall
  | connect (name : String)
  | create (name : String) (dimension : Nat) (metric : String)
deriving Repr, DecidableEq

/-- `GetOrCreatePineconeIndex`: GET `databases/<name>`; when that status
is not 200, POST `databases/` with the name, `indexDimension` and
`indexMetric`; 200 or 201 from the create is success, anything else the
"failed to create index" error.  `connectResp` / `createResp`: `none` =
transport error, `some s` = HTTP status `s`.  Returns the calls issued,
in order, and the outcome. -/
def GetOrCreatePineconeIndex (name : String)
    (connectResp createResp : Option Nat) :
    List IndexCall × Except String Unit :=
  match connectResp with
  | none => ([IndexCall.connect name], Except.error "transport")
  | some status =>
      if status ≠ 200 then
        match createResp with
        | none =>
            ([IndexCall.connect name,
              IndexCall.create name indexDimension indexMetric],
             Except.error "transport")
        | some cstatus =>
            if cstatus ≠ 200 ∧ cstatus ≠ 201 then
              ([IndexCall.connect name,
                IndexCall.create name indexDimension indexMetric],
               Except.error "failed to create index")
            else
              ([IndexCall.connect name,
                IndexCall.create name indexDimension indexMetric],
               Except.ok ())
      else ([IndexCall.connect name], Except.ok ())

/-! ## getPcProjectID (package main) -/

/-- A decoded JSON value, as `map[string]interface{}` holds one. -/
inductive JVal
  | str (s : String)
  | num (q : ℚ)
  | boolean (b : Bool)
  | null
  | arr (elems : List JVal)
  | obj (fields : List (String × JVal))

/-- `getPcProjectID`: GET whoami, decode the body into a map, then the
comma-ok assertion `result["project_name"].(string)` — missing key or a
non-string value yields the error (the two-value form never panics).
`resp`: `none` = request/transport error, `some none` = decode error,
`some (some result)` = the decoded map as a lookup function. -/
def getPcProjectID (resp : Option (Option (String → Option JVal))) :
    Except String String :=
  match resp with
  | none => Except.error "transport"
  | some none => Except.error "decode"
  | some (some result) =>
      match result "project_name" with
      | some (JVal.str s) => Except.ok s
      | _ => Except.error "project_name not found or is not a string"

/-! ## queryPinecone (package main) -/

/-- One match of the similarity query's decoded response (the unused
`sparseValues` and `metadata` fields are omitted). -/
structure QueryResponse where
  id : String
  score : ℚ
  values : List ℚ
deriving Repr, DecidableEq

/-- The decoded body of one `vectors/fetch` response: the `vectors` map
as an association list. -/
def FetchResp := List (String × List ℚ)

/-- `queryPinecone`'s per-match fetch loop: one GET `vectors/fetch` per
match (`fetch m.id = none` means the request could not be built or sent
or its body not decoded — the function returns that error).  Go's
`for _, match := range matches` binds `match` to a copy of the slice
element, so the assignment `match.Values = vectorData.Values` is made on
the copy and lost when the iteration ends; the slice itself is untouched.
Returns the fetched ids, in order, and whether all fetches succeeded. -/
def queryFetchLoop (fetch : String → Option FetchResp) :
    List QueryResponse → List String × Bool
  | [] => ([], true)
  | m :: rest =>
      match fetch m.id with
      | none => ([m.id], false)
      | some vecs =>
          let _copyUpdate :=
            match List.lookup m.id vecs with
            | some vals => { m with values := vals }
            | none => m
          let tail := queryFetchLoop fetch rest
          (m.id :: tail.1, tail.2)

/-- One network call of the query path. -/
inductive NetCall
  | embedding (sanitized : String)
  | similarity (message : String)
  | vectorFetch (id : String)
deriving Repr, DecidableEq

/-- `queryPinecone`: embed the query message, POST the similarity query
with `topK`, then one `vectors/fetch` per match.  `embedResp` feeds
`GetEmbedding`; `queryResp` is the similarity call's outcome (`none` =
any marshal/request/transport/decode error, `some ms` = the decoded
matches).  Returns the network calls issued, in order, and `some ms` on
success — the matches exactly as decoded, since the per-iteration copies
of `queryFetchLoop` are dropped. -/
def queryPinecone (queryMessage : String)
    (embedResp : String → Option (Option ResponseData))
    (queryResp : Option (List QueryResponse))
    (fetch : String → Option FetchResp) :
    List NetCall × Option (List QueryResponse) :=
  match GetEmbedding queryMessage embedResp with
  | Except.error _ => ([NetCall.embedding (sanitize queryMessage)], none)
  | Except.ok _queryVector =>
      match queryResp with
      | none =>
          ([NetCall.embedding (sanitize queryMessage),
            NetCall.similarity queryMessage], none)
      | some ms =>
          let f := queryFetchLoop fetch ms
          (NetCall.embedding (sanitize queryMessage)
             :: NetCall.similarity queryMessage
             :: f.1.map NetCall.vectorFetch,
           if f.2 then some ms else none)

/-! ## promptUserAndQueryPinecone (package main) -/

/-- How the interactive loop can end: a read error from stdin (the input
list is exhausted before an "end"), or a failed loop-body fetch. -/
inductive LoopExit
  | readError
  | fetchError
deriving Repr, DecidableEq

/-- `promptUserAndQueryPinecone` over a finite list of user inputs.  Each
iteration trims the input; a case-insensitive "end" breaks out with `nil`.
Otherwise `queryPinecone` runs: its error (embedding, similarity, or one
of its own fetches) is logged and the loop `continue`s.  On success the
loop body re-fetches each match id itself (the same copy-and-drop pattern
as `queryFetchLoop`); a failure to build or send that fetch request or to
decode its body makes the whole function return the error.  `queryResp`
keys the similarity outcome by the trimmed message; `fetchQ` / `fetchL`
are the fetch outcomes inside `queryPinecone` and in the loop body.
Returns every network call issued, in order, and the outcome. -/
def promptLoop (embedResp : String → Option (Option ResponseData))
    (queryResp : String → Option (List QueryResponse))
    (fetchQ fetchL : String → Option FetchResp) :
    List String → List NetCall × Except LoopExit Unit
  | [] => ([], Except.error LoopExit.readError)
  | input :: rest =>
      let queryMessage := trimSpace input
      if toLowerGo queryMessage = "end" then ([], Except.ok ())
      else
        let q := queryPinecone queryMessage embedResp
          (queryResp queryMessage) fetchQ
        match q.2 with
        | none =>
            let t := promptLoop embedResp queryResp fetchQ fetchL rest
            (q.1 ++ t.1, t.2)
        | some ms =>
            let f := queryFetchLoop fetchL ms
            if f.2 then
              let t := promptLoop embedResp queryResp fetchQ fetchL rest
              (q.1 ++ f.1.map NetCall.vectorFetch ++ t.1, t.2)
            else
              (q.1 ++ f.1.map NetCall.vectorFetch,
               Except.error LoopExit.fetchError)

/-! ## Claim theorems -/

/-- C1 (counterexample evaluation): on a one-line input whose line is a
single space — unparseable, the regexp has no match — with the embedding
call succeeding and the CSV write succeeding, `CreateEmbeddingFile`
embeds the zero-value message `""`, writes its row to the sink and
reports `Successes = 1`, although `N − P − E = 1 − 1 − 0 = 0`: the
parse-failure branch logs "skipping" but has no `continue`, so the
unparseable line is not skipped. -/
theorem createEmbeddingFile_unparseable_line_counted_as_success :
    (CreateEmbeddingFile [" "] (fun _ => some (some ⟨[[1]]⟩))
        (fun _ => true)).1 = ⟨1, 1, 0, 0, 1⟩
    ∧ (CreateEmbeddingFile [" "] (fun _ => some (some ⟨[[1]]⟩))
        (fun _ => true)).2.length = 1 :=
  ⟨rfl, rfl⟩

/-- C2 (counterexample evaluation): on a one-row input `abc,1.5` whose
first field is not a valid float, with the store answering 200,
`UpsertDataToPinecone` still attempts the write (a two-slot vector, the
bad slot holding `ParseFloat`'s zero return) and counts the row as a
success: the row summary is `1 success, 0 failed`, not excluded — the
`continue` after the float-parse error only advances the inner field
loop. -/
theorem upsertDataToPinecone_bad_float_row_still_written :
    (upsertRows ["abc,1.5"] (fun _ => some 200)).1 = ⟨1, 1, 0⟩
    ∧ ((upsertRows ["abc,1.5"] (fun _ => some 200)).2.map UpsertCall.id)
        = ["vector_id_1"]
    ∧ ((upsertRows ["abc,1.5"] (fun _ => some 200)).2.map
        (fun c => c.values.length)) = [2] :=
  ⟨rfl, rfl, rfl⟩

/-- C3 (counterexample evaluation): one match with id `"a"` and empty
values; the fetch-by-id response does contain `"a"` with stored values
`[1]`, yet the match sequence `queryPinecone` returns still carries empty
values — `for _, match := range matches` updates a copy, so the fetched
values are dropped. -/
theorem queryPinecone_fetched_values_dropped :
    queryPinecone "hi" (fun _ => some (some ⟨[[1]]⟩))
        (some [⟨"a", 1, []⟩]) (fun _ => some [("a", [1])])
      = ([NetCall.embedding "hi", NetCall.similarity "hi",
          NetCall.vectorFetch "a"], some [⟨"a", 1, []⟩])
    ∧ ([] : List ℚ) ≠ [1] :=
  ⟨rfl, by decide⟩

/-- C4 (counterexample evaluation): on the documented transcript line the
regexp's bracketed alternative never matches (the line has `] ~ name:`
where the pattern wants `] : ~`), so the `^` alternative captures the
first whitespace-delimited token `[09.09.23,` — not `Hello world!`. -/
theorem lineParser_scenario_extracts_first_token :
    parseMessage "[09.09.23, 14:35:02] ~ john_doe: Hello world!"
      = some "[09.09.23,"
    ∧ ("[09.09.23," : String) ≠ "Hello world!" :=
  ⟨by decide, by decide⟩

/-- C5: `GetOrCreatePineconeIndex` issues the connect call first; given
the connect call returns a status, the create call — carrying the
configured name, dimension and metric — is issued exactly when that
status is not 200; a connect status of 200 returns success with no
create call; and given the create call returns a status, the outcome is
success exactly for 200 or 201 and the error otherwise. -/
theorem getOrCreatePineconeIndex_connect_then_create
    (name : String) (s : Nat) (createResp : Option Nat) :
    ((GetOrCreatePineconeIndex name (some s) createResp).1.head?
        = some (IndexCall.connect name))
    ∧ (IndexCall.create name indexDimension indexMetric
        ∈ (GetOrCreatePineconeIndex name (some s) createResp).1 ↔ s ≠ 200)
    ∧ (s = 200 → GetOrCreatePineconeIndex name (some s) createResp
        = ([IndexCall.connect name], Except.ok ()))
    ∧ (∀ t, s ≠ 200 → createResp = some t →
        GetOrCreatePineconeIndex name (some s) createResp
          = ([IndexCall.connect name,
              IndexCall.create name indexDimension indexMetric],
             if t = 200 ∨ t = 201 then Except.ok ()
             else Except.error "failed to create index")) := by
  refine ⟨?_, ?_, ?_, ?_⟩
  · rcases createResp with _ | t
    · by_cases hs : s = 200 <;> simp [GetOrCreatePineconeIndex, hs]
    · by_cases hs : s = 200 <;> by_cases ht : t ≠ 200 ∧ t ≠ 201 <;>
        simp [GetOrCreatePineconeIndex, hs, ht]
  · rcases createResp with _ | t
    · by_cases hs : s = 200 <;> simp [GetOrCreatePineconeIndex, hs]
    · by_cases hs : s = 200 <;> by_cases ht : t ≠ 200 ∧ t ≠ 201 <;>
        simp [GetOrCreatePineconeIndex, hs, ht]
  · intro hs
    simp [GetOrCreatePineconeIndex, hs]
  · intro t hs ht
    subst ht
    by_cases h2 : t = 200 ∨ t = 201
    · have ht2 : ¬(t ≠ 200 ∧ t ≠ 201) := by tauto
      simp [GetOrCreatePineconeIndex, hs, ht2, h2]
    · have ht2 : t ≠ 200 ∧ t ≠ 201 := by tauto
      simp [GetOrCreatePineconeIndex, hs, ht2, h2]

/-- C5 scenario witness: connect answers 404, the create call is issued
with dimension 1536 and metric cosine, and a 201 creation response is
success. -/
theorem getOrCreatePineconeIndex_scenario :
    GetOrCreatePineconeIndex indexName (some 404) (some 201)
      = ([IndexCall.connect indexName,
          IndexCall.create indexName 1536 "cosine"], Except.ok ()) := by
  have h := (getOrCreatePineconeIndex_connect_then_create indexName 404
    (some 201)).2.2.2 201 (by decide) rfl
  simpa [indexDimension, indexMetric] using h

/-- C7: `GetEmbedding` returns an error exactly when the transport
request fails, the response body cannot be decoded, or the decoded
response carries zero embedding vectors (empty data list or empty first
embedding); in every other case it succeeds with the response's first
embedding, which is nonempty. -/
theorem getEmbedding_error_conditions (text : String)
    (resp : String → Option (Option ResponseData)) :
    ((∃ e, GetEmbedding text resp = Except.error e)
      ↔ resp (sanitize text) = none
        ∨ resp (sanitize text) = some none
        ∨ ∃ rd, resp (sanitize text) = some (some rd)
            ∧ (rd.data = [] ∨ rd.data.headD [] = []))
    ∧ (∀ v, GetEmbedding text resp = Except.ok v →
        v ≠ [] ∧ ∃ rd, resp (sanitize text) = some (some rd)
            ∧ rd.data.headD [] = v) := by
  rcases h : resp (sanitize text) with _ | r
  · constructor
    · simp only [GetEmbedding, h]
      simp
    · intro v hv
      simp [GetEmbedding, h] at hv
  · rcases r with _ | rd
    · constructor
      · simp only [GetEmbedding, h]
        simp
      · intro v hv
        simp [GetEmbedding, h] at hv
    · obtain ⟨data⟩ := rd
      rcases data with _ | ⟨v0, restv⟩
      · constructor
        · constructor
          · intro _
            exact Or.inr (Or.inr ⟨⟨[]⟩, rfl, Or.inl rfl⟩)
          · intro _
            refine ⟨EmbedError.noData, ?_⟩
            simp [GetEmbedding, h]
        · intro v hv
          simp [GetEmbedding, h] at hv
      · rcases v0 with _ | ⟨x, xs⟩
        · constructor
          · constructor
            · intro _
              exact Or.inr (Or.inr ⟨⟨[] :: restv⟩, rfl, Or.inr rfl⟩)
            · intro _
              refine ⟨EmbedError.noData, ?_⟩
              simp [GetEmbedding, h]
          · intro v hv
            simp [GetEmbedding, h] at hv
        · constructor
          · simp [GetEmbedding, h]
          · intro v hv
            simp [GetEmbedding, h] at hv
            subst hv
            refine ⟨by simp, ⟨(x :: xs) :: restv⟩, rfl, by simp⟩

/-- C10: for a decoded whoami response, `getPcProjectID` succeeds with
`s` exactly when the map holds the string `s` under `"project_name"`,
and returns an error — it is a total function, the comma-ok assertion
never panics — whenever the key is missing or its value is not a
string. -/
theorem getPcProjectID_total_and_exact (result : String → Option JVal) :
    (∀ s, getPcProjectID (some (some result)) = Except.ok s
        ↔ result "project_name" = some (JVal.str s))
    ∧ ((∀ s, result "project_name" ≠ some (JVal.str s)) →
        ∃ e, getPcProjectID (some (some result)) = Except.error e) := by
  constructor
  · intro s
    rcases h : result "project_name" with _ | v
    · simp [getPcProjectID, h]
    · cases v <;> simp [getPcProjectID, h]
  · intro hno
    refine ⟨"project_name not found or is not a string", ?_⟩
    rcases h : result "project_name" with _ | v
    · simp [getPcProjectID, h]
    · cases v with
      | str s0 => exact absurd h (hno s0)
      | num q => simp [getPcProjectID, h]
      | boolean b => simp [getPcProjectID, h]
      | null => simp [getPcProjectID, h]
      | arr elems => simp [getPcProjectID, h]
      | obj fields => simp [getPcProjectID, h]

/-- C9: when an input trims to a case-insensitive "end", the interactive
loop breaks immediately: it returns cleanly (`nil`) and issues no network
call at all, whatever inputs were still pending. -/
theorem promptLoop_end_exits_cleanly
    (embedResp : String → Option (Option ResponseData))
    (queryResp : String → Option (List QueryResponse))
    (fetchQ fetchL : String → Option FetchResp)
    (input : String) (rest : List String)
    (h : toLowerGo (trimSpace input) = "end") :
    promptLoop embedResp queryResp fetchQ fetchL (input :: rest)
      = ([], Except.ok ()) := by
  simp [promptLoop, h]

/-- C9 witness: the input `" End "` (with surrounding blanks and mixed
case, and further inputs pending) exits cleanly with no calls. -/
theorem promptLoop_end_exits_cleanly_witness :
    promptLoop (fun _ => none) (fun _ => none) (fun _ => none)
        (fun _ => none) [" End ", "more"] = ([], Except.ok ()) :=
  promptLoop_end_exits_cleanly _ _ _ _ " End " ["more"] (by decide)

/-- The fetch pass over a match list succeeds exactly when every match's
fetch outcome is a response (it stops at the first failure). -/
theorem queryFetchLoop_ok_iff (fetch : String → Option FetchResp)
    (ms : List QueryResponse) :
    (queryFetchLoop fetch ms).2 = true ↔ ∀ m ∈ ms, fetch m.id ≠ none := by
  induction ms with
  | nil => simp [queryFetchLoop]
  | cons m rest ih =>
      rcases h : fetch m.id with _ | v <;> simp [queryFetchLoop, h, ih]

/-- C6: in an iteration whose input is not "end", a `queryPinecone`
failure (embedding, similarity query, or its internal fetch) only skips
the iteration — the loop's verdict is that of the remaining inputs —
while a failed loop-body fetch for any returned match aborts the whole
loop with an error; when every loop-body fetch succeeds the loop again
continues into the remaining inputs. -/
theorem promptLoop_failure_asymmetry
    (embedResp : String → Option (Option ResponseData))
    (queryResp : String → Option (List QueryResponse))
    (fetchQ fetchL : String → Option FetchResp)
    (input : String) (rest : List String)
    (hend : toLowerGo (trimSpace input) ≠ "end") :
    ((queryPinecone (trimSpace input) embedResp
        (queryResp (trimSpace input)) fetchQ).2 = none →
      (promptLoop embedResp queryResp fetchQ fetchL (input :: rest)).2
        = (promptLoop embedResp queryResp fetchQ fetchL rest).2)
    ∧ (∀ ms, (queryPinecone (trimSpace input) embedResp
          (queryResp (trimSpace input)) fetchQ).2 = some ms →
        ((∃ m ∈ ms, fetchL m.id = none) →
          (promptLoop embedResp queryResp fetchQ fetchL (input :: rest)).2
            = Except.error LoopExit.fetchError)
        ∧ ((∀ m ∈ ms, fetchL m.id ≠ none) →
          (promptLoop embedResp queryResp fetchQ fetchL (input :: rest)).2
            = (promptLoop embedResp queryResp fetchQ fetchL rest).2)) := by
  constructor
  · intro hq
    simp only [promptLoop, if_neg hend]
    rw [hq]
  · intro ms hq
    constructor
    · intro hfail
      have hnotok : (queryFetchLoop fetchL ms).2 = false := by
        rcases Bool.eq_false_or_eq_true (queryFetchLoop fetchL ms).2 with
          hb | hb
        · obtain ⟨m, hm, hmf⟩ := hfail
          exact absurd hmf ((queryFetchLoop_ok_iff fetchL ms).mp hb m hm)
        · exact hb
      simp only [promptLoop, if_neg hend]
      rw [hq]
      simp [hnotok]
    · intro hall
      have hok : (queryFetchLoop fetchL ms).2 = true :=
        (queryFetchLoop_ok_iff fetchL ms).mpr hall
      simp only [promptLoop, if_neg hend]
      rw [hq]
      simp [hok]

/-- C6 witness: a query failure on `"hi"` leaves the loop's verdict to
the rest of the inputs (here: the read error of an exhausted stdin). -/
theorem promptLoop_failure_asymmetry_witness :
    (promptLoop (fun _ => none) (fun _ => none) (fun _ => none)
        (fun _ => none) ["hi"]).2
      = (promptLoop (fun _ => none) (fun _ => none) (fun _ => none)
        (fun _ => none) []).2 :=
  (promptLoop_failure_asymmetry (fun _ => none) (fun _ => none)
    (fun _ => none) (fun _ => none) "hi" [] (by decide)).1 rfl

/-! ## Decimal digits: supporting lemmas for the round-trip (C8) -/

/-- The accumulator of `natDigitsAux` is a plain suffix. -/
theorem natDigitsAux_append (fuel : Nat) :
    ∀ n acc, natDigitsAux fuel n acc = natDigitsAux fuel n [] ++ acc := by
  induction fuel with
  | zero => intro n acc; simp [natDigitsAux]
  | succ fuel ih =>
      intro n acc
      by_cases h : n < 10
      · simp [natDigitsAux, h]
      · simp only [natDigitsAux, if_neg h]
        rw [ih (n / 10) (Nat.digitChar (n % 10) :: acc),
          ih (n / 10) [Nat.digitChar (n % 10)], List.append_assoc]
        rfl

/-- Any fuel above `n` yields the same digits. -/
theorem natDigitsAux_fuel (n : Nat) :
    ∀ f₁ f₂ acc, n < f₁ → n < f₂ →
      natDigitsAux f₁ n acc = natDigitsAux f₂ n acc := by
  induction n using Nat.strong_induction_on with
  | _ n ih =>
      intro f₁ f₂ acc h₁ h₂
      match f₁, f₂ with
      | g₁ + 1, g₂ + 1 =>
          by_cases h : n < 10
          · simp [natDigitsAux, h]
          · simp only [natDigitsAux, if_neg h]
            have hd : n / 10 < n := Nat.div_lt_self (by omega) (by omega)
            exact ih (n / 10) hd g₁ g₂ _ (by omega) (by omega)

/-- One digit for `n < 10`. -/
theorem natDigits_small {n : Nat} (h : n < 10) :
    natDigits n = [Nat.digitChar n] := by
  simp [natDigits, natDigitsAux, h]

/-- The recursion equation for `n ≥ 10`. -/
theorem natDigits_step {n : Nat} (h : ¬ n < 10) :
    natDigits n = natDigits (n / 10) ++ [Nat.digitChar (n % 10)] := by
  have hd : n / 10 < n := Nat.div_lt_self (by omega) (by omega)
  calc natDigits n
      = natDigitsAux n (n / 10) [Nat.digitChar (n % 10)] := by
        simp [natDigits, natDigitsAux, h]
    _ = natDigitsAux (n / 10 + 1) (n / 10) [Nat.digitChar (n % 10)] :=
        natDigitsAux_fuel (n / 10) n (n / 10 + 1) _ (by omega) (by omega)
    _ = natDigits (n / 10) ++ [Nat.digitChar (n % 10)] :=
        natDigitsAux_append (n / 10 + 1) (n / 10) [Nat.digitChar (n % 10)]

/-- `digitVal` inverts `Nat.digitChar` below 10. -/
theorem digitVal_digitChar {d : Nat} (h : d < 10) :
    digitVal (Nat.digitChar d) = d := by
  interval_cases d <;> decide

/-- `Nat.digitChar` lands in the digit class below 10. -/
theorem isDigit_digitChar {d : Nat} (h : d < 10) :
    isDigit (Nat.digitChar d) = true := by
  interval_cases d <;> decide

/-- Every character of `natDigits n` is a decimal digit. -/
theorem natDigits_all_digits (n : Nat) :
    ∀ c ∈ natDigits n, isDigit c = true := by
  induction n using Nat.strong_induction_on with
  | _ n ih =>
      by_cases h : n < 10
      · rw [natDigits_small h]
        intro c hc
        rw [List.mem_singleton] at hc
        subst hc
        exact isDigit_digitChar h
      · rw [natDigits_step h]
        intro c hc
        rcases List.mem_append.mp hc with hc | hc
        · exact ih (n / 10) (Nat.div_lt_self (by omega) (by omega)) c hc
        · rw [List.mem_singleton] at hc
          subst hc
          exact isDigit_digitChar (Nat.mod_lt n (by omega))

/-- `natDigits` is never empty. -/
theorem natDigits_ne_nil (n : Nat) : natDigits n ≠ [] := by
  by_cases h : n < 10
  · rw [natDigits_small h]; simp
  · rw [natDigits_step h]; simp

/-- Appending one digit multiplies the read-back value by ten. -/
theorem digitsToNat_append_digit (ds : List Char) (c : Char) :
    digitsToNat (ds ++ [c]) = 10 * digitsToNat ds + digitVal c := by
  simp [digitsToNat, List.foldl_append]

/-- Reading the digits of `n` back recovers `n`. -/
theorem digitsToNat_natDigits (n : Nat) :
    digitsToNat (natDigits n) = n := by
  induction n using Nat.strong_induction_on with
  | _ n ih =>
      by_cases h : n < 10
      · rw [natDigits_small h]
        simp [digitsToNat, digitVal_digitChar h]
      · rw [natDigits_step h, digitsToNat_append_digit,
          ih (n / 10) (Nat.div_lt_self (by omega) (by omega)),
          digitVal_digitChar (Nat.mod_lt n (by omega))]
        omega

/-- `n < 10 ^ k` gives at most `k` digits (for `k ≥ 1`). -/
theorem natDigits_length_le (k : Nat) :
    ∀ n, 1 ≤ k → n < 10 ^ k → (natDigits n).length ≤ k := by
  induction k with
  | zero => intro n hk; omega
  | succ k ih =>
      intro n _ hn
      by_cases h : n < 10
      · rw [natDigits_small h]
        simp
      · rw [natDigits_step h]
        have hk1 : 1 ≤ k := by
          by_contra hk0
          have : k = 0 := by omega
          subst this
          simp at hn
          omega
        have hdiv : n / 10 < 10 ^ k := by
          rw [Nat.div_lt_iff_lt_mul (by omega)]
          calc n < 10 ^ (k + 1) := hn
            _ = 10 ^ k * 10 := by ring
        have := ih (n / 10) hk1 hdiv
        simp only [List.length_append, List.length_singleton]
        omega

/-- Reading zero-padded digits ignores the padding. -/
theorem digitsToNat_replicate_zero (k : Nat) (ds : List Char) :
    digitsToNat (List.replicate k '0' ++ ds) = digitsToNat ds := by
  induction k with
  | zero => simp
  | succ k ih =>
      simp only [List.replicate_succ, List.cons_append]
      show digitsToNat (List.replicate k '0' ++ ds) = digitsToNat ds
      exact ih

/-- The padded fractional part: all digits, exactly six of them, reading
back to `b`. -/
theorem padLeft6_spec {b : Nat} (hb : b < 10 ^ 6) :
    (∀ c ∈ padLeft6 (natDigits b), isDigit c = true)
    ∧ (padLeft6 (natDigits b)).length = 6
    ∧ digitsToNat (padLeft6 (natDigits b)) = b := by
  have hlen := natDigits_length_le 6 b (by omega) hb
  refine ⟨?_, ?_, ?_⟩
  · intro c hc
    rcases List.mem_append.mp hc with hc | hc
    · rw [List.eq_of_mem_replicate hc]
      decide
    · exact natDigits_all_digits b c hc
  · simp only [padLeft6, List.length_append, List.length_replicate]
    omega
  · rw [padLeft6, digitsToNat_replicate_zero, digitsToNat_natDigits]

/-- `takeWhile` stops exactly at the first failing element after an
all-satisfying prefix. -/
theorem takeWhile_prefix_append {p : Char → Bool} :
    ∀ (xs : List Char) (y : Char) (ys : List Char),
      (∀ c ∈ xs, p c = true) → p y = false →
      (xs ++ y :: ys).takeWhile p = xs := by
  intro xs
  induction xs with
  | nil =>
      intro y ys _ hy
      simp [List.takeWhile, hy]
  | cons x xs ih =>
      intro y ys hall hy
      have hx : p x = true := hall x (by simp)
      simp only [List.cons_append, List.takeWhile, hx, List.append_eq]
      rw [ih y ys (fun c hc => hall c (by simp [hc])) hy]

/-- `dropWhile` lands on the first failing element. -/
theorem dropWhile_prefix_append {p : Char → Bool} :
    ∀ (xs : List Char) (y : Char) (ys : List Char),
      (∀ c ∈ xs, p c = true) → p y = false →
      (xs ++ y :: ys).dropWhile p = y :: ys := by
  intro xs
  induction xs with
  | nil =>
      intro y ys _ hy
      simp [List.dropWhile, hy]
  | cons x xs ih =>
      intro y ys hall hy
      have hx : p x = true := hall x (by simp)
      simp only [List.cons_append, List.dropWhile, hx, List.append_eq]
      exact ih y ys (fun c hc => hall c (by simp [hc])) hy

/-- `takeWhile` keeps an all-satisfying list whole. -/
theorem takeWhile_all {p : Char → Bool} :
    ∀ (xs : List Char), (∀ c ∈ xs, p c = true) → xs.takeWhile p = xs := by
  intro xs
  induction xs with
  | nil => intro _; rfl
  | cons x xs ih =>
      intro hall
      have hx : p x = true := hall x (by simp)
      simp only [List.takeWhile, hx]
      rw [ih (fun c hc => hall c (by simp [hc]))]

/-- `dropWhile` consumes an all-satisfying list whole. -/
theorem dropWhile_all {p : Char → Bool} :
    ∀ (xs : List Char), (∀ c ∈ xs, p c = true) → xs.dropWhile p = [] := by
  intro xs
  induction xs with
  | nil => intro _; rfl
  | cons x xs ih =>
      intro hall
      have hx : p x = true := hall x (by simp)
      simp only [List.dropWhile, hx]
      exact ih (fun c hc => hall c (by simp [hc]))

/-- `parseUnsigned` on `<digits of a>.<6-padded digits of b>` reads off
exactly `a + b/10^6`. -/
theorem parseUnsigned_digits_dot (a : Nat) {b : Nat} (hb : b < 10 ^ 6) :
    parseUnsigned (natDigits a ++ '.' :: padLeft6 (natDigits b))
      = some ((a : ℚ) + (b : ℚ) / 10 ^ 6) := by
  obtain ⟨hpdig, hplen, hpval⟩ := padLeft6_spec hb
  have hdot : isDigit '.' = false := by decide
  have htake : (natDigits a ++ '.' :: padLeft6 (natDigits b)).takeWhile
      isDigit = natDigits a :=
    takeWhile_prefix_append (natDigits a) '.' _ (natDigits_all_digits a) hdot
  have hdrop : (natDigits a ++ '.' :: padLeft6 (natDigits b)).dropWhile
      isDigit = '.' :: padLeft6 (natDigits b) :=
    dropWhile_prefix_append (natDigits a) '.' _ (natDigits_all_digits a) hdot
  rw [parseUnsigned, hdrop, htake]
  simp only [if_pos rfl]
  rw [takeWhile_all _ hpdig, dropWhile_all _ hpdig]
  have hne : (natDigits a).isEmpty = false := by
    rcases hx : natDigits a with _ | _
    · exact absurd hx (natDigits_ne_nil a)
    · rfl
  rw [hne]
  simp only [Bool.false_and, Bool.false_eq_true, if_false]
  rw [parseExp, hpval, hplen, digitsToNat_natDigits]
  norm_num

/-- A digit character is not a sign marker. -/
theorem isDigit_ne_sign {c : Char} (h : isDigit c = true) :
    c ≠ '+' ∧ c ≠ '-' := by
  refine ⟨?_, ?_⟩ <;> rintro rfl <;> exact absurd h (by decide)

/-- Parsing back what `%f` printed recovers the six-decimal rounding:
`strconv.ParseFloat (fmt.Sprintf("%f", x)) = round6 x`. -/
theorem parseFloatGo_formatF (x : ℚ) :
    parseFloatGo (formatF x) = some (round6 x) := by
  set r : ℤ := roundAway (x * 1000000) with hr
  set m : ℕ := r.natAbs with hm
  have h6 : (10 : ℕ) ^ 6 = 1000000 := by norm_num
  have hbmod : m % 1000000 < 10 ^ 6 := by
    rw [h6]
    exact Nat.mod_lt m (by norm_num)
  have hparse := parseUnsigned_digits_dot (m / 1000000) hbmod
  have hsplit : (m : ℚ) = 1000000 * ((m / 1000000 : ℕ) : ℚ)
      + ((m % 1000000 : ℕ) : ℚ) := by
    exact_mod_cast (Nat.div_add_mod m 1000000).symm
  have hval : (((m / 1000000 : ℕ) : ℚ) + ((m % 1000000 : ℕ) : ℚ) / 10 ^ 6)
      = (m : ℚ) / 1000000 := by
    rw [hsplit]
    ring
  have hdata : (formatF x).data = (if x < 0 then ['-'] else [])
      ++ natDigits (m / 1000000) ++ '.'
        :: padLeft6 (natDigits (m % 1000000)) := rfl
  obtain ⟨c, t, hct⟩ :=
    List.exists_cons_of_ne_nil (natDigits_ne_nil (m / 1000000))
  have hcdig : isDigit c = true :=
    natDigits_all_digits (m / 1000000) c (by rw [hct]; simp)
  obtain ⟨hcp, hcm⟩ := isDigit_ne_sign hcdig
  rw [hct] at hparse hdata
  simp only [List.cons_append] at hparse hdata
  by_cases hneg : x < 0
  · -- negative sign printed; the magnitude parses as above and is negated
    have hrle : r ≤ 0 := by
      have hx6 : x * 1000000 < 0 :=
        mul_neg_of_neg_of_pos hneg (by norm_num)
      rw [hr, roundAway, if_neg (not_le.mpr hx6)]
      have : (0 : ℤ) ≤ ⌊-(x * 1000000) + 1 / 2⌋ :=
        Int.floor_nonneg.mpr (by linarith)
      omega
    have hmr : (m : ℚ) = -(r : ℚ) := by
      have h2 : ((m : ℤ) : ℚ) = ((-r : ℤ) : ℚ) := by
        rw [hm, Int.ofNat_natAbs_of_nonpos hrle]
      push_cast at h2
      exact h2
    simp only [if_pos hneg, List.cons_append, List.nil_append] at hdata
    simp [parseFloatGo, hdata, hparse]
    rw [round6, ← hr]
    linarith [hval, hmr]
  · -- no sign; the parse is the unsigned value itself
    have hrge : 0 ≤ r := by
      have hx6 : (0 : ℚ) ≤ x * 1000000 :=
        mul_nonneg (not_lt.mp hneg) (by norm_num)
      rw [hr, roundAway, if_pos hx6]
      exact Int.floor_nonneg.mpr (by linarith)
    have hmr : (m : ℚ) = (r : ℚ) := by
      have h2 : ((m : ℤ) : ℚ) = ((r : ℤ) : ℚ) := by
        rw [hm, Int.natAbs_of_nonneg hrge]
      push_cast at h2
      exact h2
    simp only [if_neg hneg, List.cons_append, List.nil_append] at hdata
    simp [parseFloatGo, hdata, hcp, hcm, hparse]
    rw [round6, ← hr]
    linarith [hval, hmr]

/-- A `%f` string never contains a comma, so `csv.Writer` does not quote
it and `strings.Split` on commas recovers the fields. -/
theorem formatF_no_comma (x : ℚ) : ',' ∉ (formatF x).data := by
  have hdig : ∀ (n : Nat) (c : Char), c ∈ natDigits n → c ≠ ',' := by
    intro n c hc heq
    subst heq
    exact absurd (natDigits_all_digits n ',' hc) (by decide)
  have hpad : ∀ (n : Nat), ',' ∉ padLeft6 (natDigits n) := by
    intro n hc
    rcases List.mem_append.mp hc with hc | hc
    · exact absurd (List.eq_of_mem_replicate hc) (by decide)
    · exact hdig n ',' hc rfl
  intro hmem
  have hmem2 : ',' ∈ (if x < 0 then ['-'] else [])
      ++ natDigits ((roundAway (x * 1000000)).natAbs / 1000000) ++ '.'
        :: padLeft6 (natDigits ((roundAway (x * 1000000)).natAbs % 1000000)) :=
    hmem
  rcases List.mem_append.mp hmem2 with h1 | h2
  · rcases List.mem_append.mp h1 with ha | hb
    · by_cases hneg : x < 0
      · rw [if_pos hneg, List.mem_singleton] at ha
        exact absurd ha (by decide)
      · rw [if_neg hneg] at ha
        simp at ha
    · exact hdig _ ',' hb rfl
  · rw [List.mem_cons] at h2
    rcases h2 with h2 | h2
    · exact absurd h2 (by decide)
    · exact hpad _ h2

/-- A comma-free chunk is one field. -/
theorem splitCommaChars_no_comma :
    ∀ (xs : List Char), ',' ∉ xs → splitCommaChars xs = [xs] := by
  intro xs
  induction xs with
  | nil => intro _; rfl
  | cons c cs ih =>
      intro h
      have hc : ¬ c = ',' := fun hc => h (by simp [hc])
      simp only [splitCommaChars, if_neg hc]
      rw [ih (fun hmem => h (List.mem_cons_of_mem c hmem))]

/-- Splitting at the first comma after a comma-free chunk. -/
theorem splitCommaChars_append :
    ∀ (xs ys : List Char), ',' ∉ xs →
      splitCommaChars (xs ++ ',' :: ys) = xs :: splitCommaChars ys := by
  intro xs
  induction xs with
  | nil =>
      intro ys _
      simp [splitCommaChars]
  | cons c cs ih =>
      intro ys h
      have hc : ¬ c = ',' := fun hc => h (by simp [hc])
      simp only [List.cons_append, splitCommaChars, if_neg hc,
        List.append_eq]
      rw [ih ys (fun hmem => h (List.mem_cons_of_mem c hmem))]

/-- `strings.Split(.., ",")` inverts the comma join of nonempty,
comma-free fields. -/
theorem splitCommaChars_joinComma :
    ∀ (fs : List (List Char)), fs ≠ [] → (∀ f ∈ fs, ',' ∉ f) →
      splitCommaChars (joinComma fs) = fs := by
  intro fs
  induction fs with
  | nil => intro h _; exact absurd rfl h
  | cons f gs ih =>
      intro _ hall
      cases gs with
      | nil =>
          rw [joinComma]
          exact splitCommaChars_no_comma f (hall f (by simp))
      | cons g gs2 =>
          rw [joinComma, splitCommaChars_append f _ (hall f (by simp))]
          rw [ih (by simp) (fun f2 h2 => hall f2 (List.mem_cons_of_mem f h2))]

/-- Rounding to the nearest integer moves a value by at most a half. -/
theorem abs_roundAway_sub (y : ℚ) : |(roundAway y : ℚ) - y| ≤ 1 / 2 := by
  rw [roundAway]
  by_cases h : 0 ≤ y
  · rw [if_pos h]
    have h1 : (⌊y + 1 / 2⌋ : ℚ) ≤ y + 1 / 2 := Int.floor_le (y + 1 / 2)
    have h2 : y + 1 / 2 < (⌊y + 1 / 2⌋ : ℚ) + 1 := Int.lt_floor_add_one _
    rw [abs_le]
    constructor <;> linarith
  · rw [if_neg h]
    have h1 : (⌊-y + 1 / 2⌋ : ℚ) ≤ -y + 1 / 2 := Int.floor_le (-y + 1 / 2)
    have h2 : -y + 1 / 2 < (⌊-y + 1 / 2⌋ : ℚ) + 1 := Int.lt_floor_add_one _
    rw [abs_le]
    push_cast
    constructor <;> linarith

/-- Six-decimal rounding moves a value by at most half of the last
printed digit. -/
theorem abs_round6_sub (q : ℚ) : |round6 q - q| ≤ 1 / 2000000 := by
  have h := abs_roundAway_sub (q * 1000000)
  have heq : round6 q - q = ((roundAway (q * 1000000) : ℚ) - q * 1000000)
      / 1000000 := by
    rw [round6]
    ring
  rw [heq, abs_div, abs_of_pos (by norm_num : (0 : ℚ) < 1000000)]
  linarith

/-- C8: serialising an embedding with the embed pass's `%f` conversion,
writing it as one CSV record, splitting that line on commas and parsing
each field back with `strconv.ParseFloat` (as the upsert pass does)
reproduces every value rounded to the serialisation's six decimals, and
that rounding moves each value by at most `1/2 · 10⁻⁶`. -/
theorem embed_upsert_roundtrip (floats : List ℚ) (h : floats ≠ []) :
    (splitComma (csvRecord (float64ToStringSlice floats))).map parseFloatGo
      = floats.map (fun q => some (round6 q))
    ∧ ∀ q ∈ floats, |round6 q - q| ≤ 1 / 2000000 := by
  have hmkdata : ∀ s : String, String.mk s.data = s := by
    intro s
    cases s
    rfl
  constructor
  · have hfields : (float64ToStringSlice floats).map String.data
        = floats.map (fun q => (formatF q).data) := by
      rw [float64ToStringSlice, List.map_map]
      rfl
    have hsplit : splitComma (csvRecord (float64ToStringSlice floats))
        = (splitCommaChars (joinComma
            (floats.map (fun q => (formatF q).data)))).map String.mk := by
      rw [csvRecord, hfields]
      rfl
    rw [hsplit, splitCommaChars_joinComma _ ?hne ?hfree]
    case hne =>
      intro hnil
      rw [List.map_eq_nil_iff] at hnil
      exact h hnil
    case hfree =>
      intro f hf
      rw [List.mem_map] at hf
      obtain ⟨q, _, rfl⟩ := hf
      exact formatF_no_comma q
    rw [List.map_map, List.map_map]
    apply List.map_eq_map_iff.mpr
    intro q _
    show parseFloatGo (String.mk (formatF q).data) = some (round6 q)
    rw [hmkdata]
    exact parseFloatGo_formatF q
  · intro q _
    exact abs_round6_sub q

/-- C8 witness: the round-trip at the one-element vector `[1]`. -/
theorem embed_upsert_roundtrip_witness :
    (splitComma (csvRecord (float64ToStringSlice [(1 : ℚ)]))).map
        parseFloatGo
      = [(1 : ℚ)].map (fun q => some (round6 q))
    ∧ ∀ q ∈ [(1 : ℚ)], |round6 q - q| ≤ 1 / 2000000 :=
  embed_upsert_roundtrip [(1 : ℚ)] (by simp)

end WhatsappVectorDB
